import Mathlib

/-!
Shallow embedding of `sync_deps_for_users.py` (AD → Yandex 360 department and
user synchronisation script) together with proofs about the behaviour its
specification describes.

Modelling conventions:
* Python strings are embedded as `List Char` (`Str`), so that all string
  operations (`split`, `lower`, `strip`, containment, length) are executable
  Lean functions the kernel can evaluate.
* Python's `s.split(sep)[i]` raises `IndexError` when `i` is out of range; the
  embedding uses `List.getD` with a default.  All inputs considered by the
  theorems are well-formed lines on which the two semantics agree.
* The remote Yandex 360 service is a state value (`Remote`); every API helper
  of the script that mutates the service becomes a state transition, and every
  decision the script logs or applies is recorded as a `Change` value.  The
  dry-run branch of the script logs the same intention that the live branch
  applies, so both branches emit the same `Change`.
* Python `set` iteration order is unspecified; it is modelled as insertion
  order (`addIfNew`).  Python `sorted` is a stable sort and is modelled with
  `List.insertionSort`, which is also stable.
-/

namespace SyncDeps

/-! ## Strings as lists of characters -/

abbrev Str := List Char

/-- Python `s.split(sep)` for a single-character separator. -/
def splitChar (sep : Char) : Str → List Str
  | [] => [[]]
  | c :: rest =>
    let r := splitChar sep rest
    if c = sep then [] :: r
    else
      match r with
      | [] => [[c]]
      | h :: t => (c :: h) :: t

/-- Python `s[i]` on a split result; total via a default (Python would raise). -/
def fld (l : List Str) (i : Nat) : Str := l.getD i []

/-- Python `str.lower()` (ASCII case folding suffices for the data involved). -/
def lowerS (s : Str) : Str := s.map Char.toLower

/-- Python `str.strip()`. -/
def trimS (s : Str) : Str :=
  ((s.dropWhile Char.isWhitespace).reverse.dropWhile Char.isWhitespace).reverse

/-- Python `sep in s` for a single character. -/
def hasChar (s : Str) (c : Char) : Bool := s.contains c

/-- Python `s.startswith(p)`. -/
def startsWithS : Str → Str → Bool
  | _, [] => true
  | [], _ :: _ => false
  | c :: s, d :: p => c = d && startsWithS s p

/-- Python `s.split('@')[0]`: the local part of an e-mail address. -/
def localPart (e : Str) : Str := fld (splitChar '@' e) 0

/-- Python `';'.join(parts)`. -/
def joinSemi : List Str → Str
  | [] => []
  | [p] => p
  | p :: rest => p ++ ';' :: joinSemi rest

/-! ## `SENSITIVE_FIELDS` and `mask_sensitive_data` (C10)

JSON-like values passed to the logger are modelled by a mutual inductive
(`JVal` / `JList` / `JObj`) so that dictionaries and lists can nest. -/

def SENSITIVE_FIELDS : List Str :=
  ["password".toList, "oauth_token".toList, "access_token".toList, "token".toList]

def MASKED : Str := "***MASKED***".toList

mutual
inductive JVal where
  | str (s : Str)
  | num (n : Int)
  | boolean (b : Bool)
  | null
  | arr (l : JList)
  | obj (o : JObj)
deriving DecidableEq

inductive JList where
  | nil
  | cons (v : JVal) (tl : JList)
deriving DecidableEq

inductive JObj where
  | nil
  | cons (k : Str) (v : JVal) (tl : JObj)
deriving DecidableEq
end

mutual
/-- Models `mask_recursive` of the script applied to an arbitrary value: dictionaries
and lists are traversed, scalars are returned unchanged. -/
def maskRecursive : JVal → JVal
  | .arr l => .arr (maskRecursiveList l)
  | .obj o => .obj (maskRecursiveObj o)
  | v => v

def maskRecursiveList : JList → JList
  | .nil => .nil
  | .cons v tl => .cons (maskRecursive v) (maskRecursiveList tl)

/-- Inside a dictionary: a key whose lower-cased name is sensitive has its
value replaced by `***MASKED***`; otherwise the value is traversed when it is
a dictionary or a list (traversing a scalar leaves it unchanged, which is what
the `elif isinstance` test amounts to). -/
def maskRecursiveObj : JObj → JObj
  | .nil => .nil
  | .cons k v tl =>
    .cons k (if lowerS k ∈ SENSITIVE_FIELDS then .str MASKED else maskRecursive v)
      (maskRecursiveObj tl)
end

/-- Models `mask_sensitive_data(data)`: deep-copies the dictionary and masks it.  The
deep copy means the input value is never mutated; in this pure embedding the
function simply returns the masked dictionary. -/
def mask_sensitive_data (data : JObj) : JObj := maskRecursiveObj data

mutual
/-- The specification sentence for C10, written as a relation: the output is
equal to the input except that, at every nesting depth, the value of every key
whose lower-cased name is sensitive is replaced by the string `***MASKED***`. -/
inductive MaskSpecV : JVal → JVal → Prop where
  | str (s : Str) : MaskSpecV (.str s) (.str s)
  | num (n : Int) : MaskSpecV (.num n) (.num n)
  | boolean (b : Bool) : MaskSpecV (.boolean b) (.boolean b)
  | null : MaskSpecV .null .null
  | arr {l l' : JList} : MaskSpecL l l' → MaskSpecV (.arr l) (.arr l')
  | obj {o o' : JObj} : MaskSpecO o o' → MaskSpecV (.obj o) (.obj o')

inductive MaskSpecL : JList → JList → Prop where
  | nil : MaskSpecL .nil .nil
  | cons {v v' : JVal} {tl tl' : JList} :
      MaskSpecV v v' → MaskSpecL tl tl' → MaskSpecL (.cons v tl) (.cons v' tl')

inductive MaskSpecO : JObj → JObj → Prop where
  | nil : MaskSpecO .nil .nil
  | consSensitive {k : Str} {v : JVal} {tl tl' : JObj} :
      lowerS k ∈ SENSITIVE_FIELDS → MaskSpecO tl tl' →
      MaskSpecO (.cons k v tl) (.cons k (.str MASKED) tl')
  | consOther {k : Str} {v v' : JVal} {tl tl' : JObj} :
      lowerS k ∉ SENSITIVE_FIELDS → MaskSpecV v v' → MaskSpecO tl tl' →
      MaskSpecO (.cons k v tl) (.cons k v' tl')
end

/-! ## Hierarchy validators (C1, C2)

The AD hierarchy is a list of text lines: a node line
`path~mail~parentExternalId;externalId` or a membership line
`path|displayName;email`. -/

/-- The alias the duplicate-mail validator extracts from one line: the e-mail
local part of a membership line, or the group-mail local part of a node line.
`none` when the line has neither separator (Python would raise `NameError` on
the first such line and silently reuse the previous alias afterwards; the
reuse is modelled by threading the previous value, see `countStep`). -/
def aliasOfItem (item : Str) : Option Str :=
  if hasChar item '|' then
    some (localPart (fld (splitChar ';' (fld (splitChar '|' item) 1)) 1))
  else if hasChar item '~' then
    some (localPart (fld (splitChar '~' item) 1))
  else none

/-- Increment the count of `a` in an insertion-ordered association list
(models `count_disct[alias] += 1` on a Python dict). -/
def bumpCount : List (Str × Nat) → Str → List (Str × Nat)
  | [], a => [(a, 1)]
  | (k, n) :: rest, a =>
    if k = a then (k, n + 1) :: rest else (k, n) :: bumpCount rest a

/-- One iteration of the counting loop of `check_similar_mails_in_hierarchy`:
the `alias` variable is only reassigned when the line has a separator, and the
(possibly stale) value is counted whenever it is a non-empty string. -/
def countStep (st : Option Str × List (Str × Nat)) (item : Str) :
    Option Str × List (Str × Nat) :=
  let al := match aliasOfItem item with
            | some a => some a
            | none => st.1
  match al with
  | some a => (al, if a ≠ [] then bumpCount st.2 a else st.2)
  | none => (al, st.2)

def countDisct (hierarchy : List Str) : List (Str × Nat) :=
  (hierarchy.foldl countStep (none, [])).2

def badAliases (hierarchy : List Str) : List Str :=
  ((countDisct hierarchy).filter (fun kv => decide (kv.2 > 1))).map (·.1)

/-- Node-line test used in the reporting loop of the duplicate-mail check. -/
def tildeAliasIs (al : Str) (item : Str) : Bool :=
  !hasChar item '|' && hasChar item '~' && localPart (fld (splitChar '~' item) 1) = al

/-- Models `check_similar_mails_in_hierarchy`.  Returns the boolean result together
with the hierarchy list as left behind by the function: for every duplicated
*group* alias it appends a copy of the node line with the mail field cleared
(the lines appended while the Python loop iterates can never match a bad
alias, because their mail field is empty, so iterating the original list is
equivalent). -/
def check_similar_mails_in_hierarchy (hierarchy : List Str) : Bool × List Str :=
  let bad := badAliases hierarchy
  if bad.length > 0 then
    (false,
      hierarchy ++ bad.flatMap (fun al =>
        (hierarchy.filter (tildeAliasIs al)).map (fun item =>
          fld (splitChar '~' item) 0 ++ '~' :: '~' :: fld (splitChar '~' item) 2)))
  else (true, hierarchy)

/-- External-identifier field of a node line: `item.split('~')[2].split(';')[1]`. -/
def extIdField (item : Str) : Str :=
  fld (splitChar ';' (fld (splitChar '~' item) 2)) 1

/-- Parent-external-identifier field: `item.split('~')[2].split(';')[0]`. -/
def prevExtIdField (item : Str) : Str :=
  fld (splitChar ';' (fld (splitChar '~' item) 2)) 0

/-- Models `check_empty_external_id`: flags every node line whose external identifier
field is empty; it keeps scanning (logging each offender) and returns whether
no offender was found. -/
def check_empty_external_id (hierarchy : List Str) : Bool :=
  hierarchy.foldl
    (fun noErrors item =>
      if hasChar item '~' ∧ extIdField item = [] then false else noErrors)
    true

/-- Models `check_similar_groups_in_hierarchy`: fails when two node lines carry the
same external identifier. -/
def check_similar_groups_in_hierarchy (hierarchy : List Str) : Bool :=
  let groups := hierarchy.filter (fun item => hasChar item '~')
  groups.all (fun g =>
    (groups.countP (fun g' => extIdField g' = extIdField g)) ≤ 1)

/-! ## Bounded-retry loop of the API helpers (C8)

`patch_user_by_api`, `patch_department_by_api` and `create_user_by_api` share
the same loop: `retries = 1; while True: try: request ... except: log`.
An HTTP error response increments `retries` after sleeping
`RETRIES_DELAY_SEC * retries` seconds until `retries` reaches `MAX_RETRIES`;
a raised exception is caught *inside* the loop and neither increments
`retries` nor breaks.  One loop iteration issues one request; the outcome of
attempt `i` is `outcomes i`. -/

def MAX_RETRIES : Nat := 3

def RETRIES_DELAY_SEC : Nat := 2

inductive ApiOutcome where
  | ok
  | httpError
  | exn
deriving DecidableEq

structure CallResult where
  success : Bool
  attempts : Nat
  delays : List Nat
deriving DecidableEq

/-- The retry loop, indexed by fuel (number of loop iterations the model is
willing to execute); `none` means the loop was still running when the fuel ran
out.  `attempt` counts requests already issued, `retries` mirrors the Python
variable, `delays` records every back-off sleep in order. -/
def apiCallLoop (outcomes : Nat → ApiOutcome) :
    Nat → Nat → Nat → List Nat → Option CallResult
  | 0, _, _, _ => none
  | fuel + 1, attempt, retries, delays =>
    match outcomes attempt with
    | .ok => some ⟨true, attempt + 1, delays⟩
    | .httpError =>
      if retries < MAX_RETRIES then
        apiCallLoop outcomes fuel (attempt + 1) (retries + 1)
          (delays ++ [RETRIES_DELAY_SEC * retries])
      else some ⟨false, attempt + 1, delays⟩
    | .exn => apiCallLoop outcomes fuel (attempt + 1) retries delays

/-- Models `patch_user_by_api` (and the two helpers sharing its loop shape), starting
from `retries = 1` before the first request. -/
def patch_user_by_api_loop (outcomes : Nat → ApiOutcome) (fuel : Nat) :
    Option CallResult :=
  apiCallLoop outcomes fuel 0 1 []

/-- The call terminates: some finite number of loop iterations suffices. -/
def CallTerminates (outcomes : Nat → ApiOutcome) : Prop :=
  ∃ fuel r, patch_user_by_api_loop outcomes fuel = some r

/-- An outcome stream on which every attempt raises a connection exception. -/
def alwaysExn : Nat → ApiOutcome := fun _ => .exn

/-- An outcome stream on which every attempt gets an HTTP error response. -/
def alwaysHttpError : Nat → ApiOutcome := fun _ => .httpError

/-! ## `build_group_hierarchy` / `build_hierarcy_recursive` (C5)

The AD source is a tree of groups; person records are a flat list, joined to
a group when their `extensionAttribute14` equals the group's
`sAMAccountName`.  All attribute values are modelled already lower-cased and
stripped, as the script normalises them on extraction. -/

structure LUser where
  displayName : Str
  mail : Str
  ext14 : Str
deriving DecidableEq

mutual
inductive GTree where
  | node (name mail extId samName : Str) (children : GForest)

inductive GForest where
  | nil
  | cons (t : GTree) (ts : GForest)
end

def GTree.name : GTree → Str
  | .node n _ _ _ _ => n

def GTree.mail : GTree → Str
  | .node _ m _ _ _ => m

def GTree.extId : GTree → Str
  | .node _ _ e _ _ => e

def GTree.samName : GTree → Str
  | .node _ _ _ s _ => s

def GTree.children : GTree → GForest
  | .node _ _ _ _ c => c

/-- A node line, uniformly for the root (`pre = []`, parent field `#all#`) and
for a child of path `base` (`pre = base ++ ";"`):
`pre ++ name ~ mail ~ parentExternalId ; externalId`. -/
def mkNodeLine (pre p : Str) (t : GTree) : Str :=
  pre ++ t.name ++ '~' :: t.mail ++ '~' :: p ++ ';' :: t.extId

/-- Membership lines of the users attached to `samName`, below path `base`:
`base | displayName ; mail` (only users with a non-empty
`extensionAttribute14`). -/
def memberLines (users : List LUser) (base : Str) (samName : Str) : List Str :=
  (users.filter (fun u => u.ext14 ≠ [] ∧ u.ext14 = samName)).map
    (fun u => base ++ '|' :: u.displayName ++ ';' :: u.mail)

/-- Models `build_hierarcy_recursive`: for every child group, append its node line
(carrying the parent's external identifier), then its membership lines, then
recurse into it, then continue with the remaining siblings. -/
def build_hierarcy_recursive (users : List LUser) (base pext : Str) :
    GForest → List Str
  | .nil => []
  | .cons (.node n m e s ch) ts =>
    mkNodeLine (base ++ [';']) pext (.node n m e s ch)
      :: (memberLines users (base ++ ';' :: n) s
          ++ build_hierarcy_recursive users (base ++ ';' :: n) e ch
          ++ build_hierarcy_recursive users base pext ts)

/-- Models `build_group_hierarchy` (the part after the LDAP searches): root node line
with the reserved parent value `#all#`, the root's members (guarded by the
root having a `sAMAccountName`), then the recursive walk. -/
def build_group_hierarchy (users : List LUser) (root : GTree) : List Str :=
  mkNodeLine [] "#all#".toList root
    :: ((if root.samName = [] then [] else memberLines users root.name root.samName)
        ++ build_hierarcy_recursive users root.name root.extId root.children)

/-- Direct membership: `d` is a direct member of the forest. -/
inductive MemF : GForest → GTree → Prop where
  | head {c : GTree} {ts : GForest} : MemF (.cons c ts) c
  | tail {c d : GTree} {ts : GForest} : MemF ts d → MemF (.cons c ts) d

/-- Occurrence relation `OccF base pext f b p d`: when the forest `f` is laid out below path
`base` with parent external identifier `pext`, the node `d` occurs somewhere
in it, laid out below path `b` with parent external identifier `p`. -/
inductive OccF : Str → Str → GForest → Str → Str → GTree → Prop where
  | here {base pext : Str} {c : GTree} {ts : GForest} :
      OccF base pext (.cons c ts) base pext c
  | inChild {base pext b p : Str} {c d : GTree} {ts : GForest} :
      OccF (base ++ ';' :: c.name) c.extId c.children b p d →
      OccF base pext (.cons c ts) b p d
  | there {base pext b p : Str} {c d : GTree} {ts : GForest} :
      OccF base pext ts b p d → OccF base pext (.cons c ts) b p d

/-! ## The remote Yandex 360 state and the reconciliation pipeline

All mutating API helpers of the script are modelled as transitions on a
`Remote` value (every call is assumed to succeed; the bounded-retry behaviour
of an individual call is modelled separately, see `apiCallLoop`).  Every
decision the script takes — logged identically in dry-run mode and applied in
live mode — is recorded as a `Change`. -/

structure Settings where
  dry_run : Bool
  keep_empty_external_id_in_y360 : Bool
deriving DecidableEq

/-- One department as returned by `get_all_api360_departments`. -/
structure Dept where
  id : Nat
  parentId : Nat
  name : Str
  label : Str
  externalId : Str
deriving DecidableEq

/-- One user as returned by `get_all_api360_users` (already restricted to
non-robot accounts with a real user id, as the loader filters them). -/
structure Y360User where
  id : Nat
  nickname : Str
  aliases : List Str
  departmentId : Nat
  email : Str
deriving DecidableEq

structure Remote where
  depts : List Dept
  users : List Y360User
  nextId : Nat
deriving DecidableEq

/-- Models `get_all_api360_departments` (assuming the paginated GET succeeds). -/
def get_all_api360_departments (remote : Remote) : List Dept := remote.depts

/-- Models `get_all_api360_users(settings, force)`; both call sites of the engine
pass `force=True`, so the staleness cache is bypassed. -/
def get_all_api360_users (remote : Remote) : List Y360User := remote.users

/-- Patch data for `patch_department_by_api`. -/
structure DeptPatch where
  newName : Option Str
  newLabel : Option Str
  newParentId : Option Nat
deriving DecidableEq

def emptyPatch : DeptPatch := ⟨none, none, none⟩

def applyDeptPatchFields (d : Dept) (p : DeptPatch) : Dept :=
  { d with
    name := p.newName.getD d.name
    label := p.newLabel.getD d.label
    parentId := p.newParentId.getD d.parentId }

/-- Models `patch_department_by_api` as a state transition. -/
def patchDeptApply (remote : Remote) (id : Nat) (p : DeptPatch) : Remote :=
  { remote with
    depts := remote.depts.map (fun d => if d.id = id then applyDeptPatchFields d p else d) }

/-- Models `create_department_by_api` as a state transition. -/
def createDeptApply (remote : Remote) (name : Str) (parentId : Nat)
    (externalId : Str) (label : Option Str) : Remote :=
  { remote with
    depts := remote.depts ++ [⟨remote.nextId, parentId, name, label.getD [], externalId⟩]
    nextId := remote.nextId + 1 }

/-- Models `delete_department_by_api` as a state transition. -/
def deleteDeptApply (remote : Remote) (id : Nat) : Remote :=
  { remote with depts := remote.depts.filter (fun d => d.id ≠ id) }

/-- Models `patch_user_by_api(settings, user_id, data with departmentId)`. -/
def patchUserDept (remote : Remote) (userId : Nat) (depId : Nat) : Remote :=
  { remote with
    users := remote.users.map (fun u =>
      if u.id = userId then { u with departmentId := depId } else u) }

/-- A computed change: the intention the script logs in dry-run mode and
applies in live mode. -/
inductive Change where
  | createDept (name : Str) (parentId : Nat) (externalId : Str) (label : Option Str)
  | patchDept (id : Nat) (p : DeptPatch)
  | patchParent (externalId : Str)
  | deleteDept (path : Str) (id : Nat)
  | userToRoot (userId : Nat)
  | assignUser (userId deptId : Nat) (path : Str)
deriving DecidableEq

/-- One entry of the list `generate_deps_list_from_api` produces. -/
structure ApiDep where
  id : Nat
  parentId : Nat
  path : Str
  mail : Str
  externalId : Str
  prevExternalId : Str
deriving DecidableEq

/-- The `while not prevId == 1` walk building a department's full path by
following `parentId` links; fuel-bounded (the walk also stops when a parent
is missing, where Python would raise `StopIteration`). -/
def pathWalk (all : List Dept) : Nat → Nat → Str → Str
  | 0, _, acc => acc
  | fuel + 1, prevId, acc =>
    if prevId = 1 then acc
    else
      match all.find? (fun i => i.id = prevId) with
      | none => acc
      | some d => pathWalk all fuel d.parentId (trimS d.name ++ ';' :: acc)

/-- Models `generate_deps_list_from_api`: reshapes the raw department list into
canonical entries (path, external identifier, parent's external identifier).
Returns `[]` when the organisation only has the root department.  Entries
with `parentId = 0` (the root itself) are skipped. -/
def generate_deps_list_from_api (remote : Remote) : List ApiDep :=
  let all := get_all_api360_departments remote
  if all.length = 1 then []
  else
    all.foldl
      (fun acc item =>
        let mail := lowerS item.label
        let prevId := item.parentId
        let externalId := if item.id = 1 then "#all#".toList else lowerS item.externalId
        let prevExt0 :=
          if item.id = 1 then []
          else ((all.find? (fun i => i.id = prevId)).map (fun i => lowerS i.externalId)).getD []
        let prevExt := if prevId = 1 then "#all#".toList else prevExt0
        if prevId > 0 then
          acc ++ [⟨item.id, item.parentId,
                   pathWalk all all.length prevId (trimS item.name), mail, externalId, prevExt⟩]
        else acc)
      []

/-- One entry of the list `prepare_deps_list_from_ad_hab` builds from the AD
hierarchy (`'360id'` is spelled `f360id`). -/
structure SrcDep where
  current : Str
  prev : Str
  level : Nat
  f360id : Nat
  prevId : Nat
  path : Str
  email : Str
  externalId : Str
  prevExternalId : Str
deriving DecidableEq

def rootSrcDep : SrcDep :=
  ⟨"All".toList, "None".toList, 0, 1, 0, "All".toList, [], "#all#".toList, []⟩

/-- Models `prepare_deps_list_from_ad_hab` (without the optional file dump). -/
def prepare_deps_list_from_ad_hab (hierarchy : List Str) : List SrcDep :=
  let parsed := hierarchy.foldl
    (fun acc item =>
      if hasChar item '|' then acc
      else
        let dep := splitChar ';' (fld (splitChar '~' item) 0)
        let email := fld (splitChar '~' item) 1
        let externalId := extIdField item
        let previousExternalId := prevExtIdField item
        if dep.length = 1 then
          acc ++ [⟨fld dep 0, "All".toList, 1, 0, 1, [], email, externalId, "#all#".toList⟩]
        else
          acc ++ [⟨dep.getLastD [], joinSemi dep.dropLast, dep.length, 0, 0, [],
                   email, externalId, previousExternalId⟩])
    [rootSrcDep]
  parsed.map (fun item =>
    if item.current ≠ "All".toList then
      { item with
        path := if item.prev = "All".toList then item.current
                else item.prev ++ ';' :: item.current }
    else item)

/-! ### `delete_deps_from_y360` (C4, C6) -/

/-- The pseudo-entry `deps_from_y360.append` adds for the root department. -/
def rootApiEntry : ApiDep := ⟨1, 0, "All".toList, [], "#all#".toList, []⟩

/-- Models `deps_to_delete.add(id)`, with Python's set-iteration order determinised
as insertion order. -/
def addIfNew (acc : List Nat) (id : Nat) : List Nat :=
  if id ∈ acc then acc else acc ++ [id]

/-- The inner loop over one deletion candidate's subtree (already sorted
deepest-string-first): look the department up by path, skip it when already
deleted, otherwise re-home its users to the root department and delete it. -/
def passItems (s : Settings) (snapshot : List ApiDep) (users : List Y360User) :
    List ApiDep → Remote → List Nat → List Change × Remote × List Nat
  | [], remote, deleted => ([], remote, deleted)
  | it :: rest, remote, deleted =>
    let depsId := ((snapshot.find? (fun dep => dep.path = it.path)).map (·.id)).getD 0
    if depsId ∈ deleted then passItems s snapshot users rest remote deleted
    else
      let us := users.filter (fun u => u.departmentId = depsId)
      let seg := us.map (fun u => Change.userToRoot u.id) ++ [Change.deleteDept it.path depsId]
      let remote1 :=
        if s.dry_run then remote
        else deleteDeptApply (us.foldl (fun r u => patchUserDept r u.id 1) remote) depsId
      let res := passItems s snapshot users rest remote1 (deleted ++ [depsId])
      (seg ++ res.1, res.2.1, res.2.2)

/-- Ordering used on one candidate's subtree:
`sorted(path_to_delete, key=lambda x: len(x['path']), reverse=True)`. -/
def pathLenGE (a b : ApiDep) : Prop := b.path.length ≤ a.path.length

instance : DecidableRel pathLenGE := fun _ _ => Nat.decLe _ _

instance : IsTotal ApiDep pathLenGE := ⟨fun a b => Nat.le_total b.path.length a.path.length⟩

instance : IsTrans ApiDep pathLenGE := ⟨fun _ _ _ h₁ h₂ => Nat.le_trans h₂ h₁⟩

/-- Processing of one deletion candidate: collect its subtree by path prefix,
sort it deepest-string-first, then run `passItems` over it. -/
def candidatePass (s : Settings) (snapshot : List ApiDep) (users : List Y360User)
    (remote : Remote) (deleted : List Nat) (depsId : Nat) :
    List Change × Remote × List Nat :=
  let depsPath := ((snapshot.find? (fun item => item.id = depsId)).map (·.path)).getD []
  let items :=
    List.insertionSort pathLenGE (snapshot.filter (fun line => startsWithS line.path depsPath))
  passItems s snapshot users items remote deleted

/-- Ordering of the full remote list:
`sorted(temp, key=lambda x: len(x['path'].split(';')))`. -/
def segCountLE (a b : ApiDep) : Prop :=
  (splitChar ';' a.path).length ≤ (splitChar ';' b.path).length

instance : DecidableRel segCountLE := fun _ _ => Nat.decLe _ _

/-- Models `delete_deps_from_y360`: every remote department that was not produced
from AD (empty external identifier without the keep-option, or an external
identifier absent from the prepared list) is a deletion candidate; each
candidate's whole path-subtree is removed deepest-first, re-homing users
first. -/
def delete_deps_from_y360 (s : Settings) (remote : Remote) (createdDeps : List SrcDep) :
    List Change × Remote :=
  let temp := generate_deps_list_from_api remote
  let depsFromY360 := List.insertionSort segCountLE temp ++ [rootApiEntry]
  let y360users := get_all_api360_users remote
  let createdExtIds := createdDeps.map (·.externalId)
  let toDelete := depsFromY360.foldl
    (fun acc item =>
      if item.externalId.length = 0 then
        if item.id ≠ 1 ∧ ¬s.keep_empty_external_id_in_y360 then addIfNew acc item.id else acc
      else if item.externalId ∉ createdExtIds then
        if item.id ≠ 1 then addIfNew acc item.id else acc
      else acc)
    []
  if toDelete.length > 0 then
    let res := toDelete.foldl
      (fun (st : List Change × Remote × List Nat) depsId =>
        let r := candidatePass s depsFromY360 y360users st.2.1 st.2.2 depsId
        (st.1 ++ r.1, r.2.1, r.2.2))
      ([], remote, [])
    (res.1, res.2.1)
  else ([], remote)

/-! ### `create_dep_from_prepared_list` (C3, C9) -/

/-- Models `data_to_change` computed for an already-existing department with the same
parent: the department's name (last path segment) is compared first; only when
it agrees is the mail label compared. -/
def dataToChange (ex : ApiDep) (it : SrcDep) : DeptPatch :=
  if (splitChar ';' ex.path).getLastD [] ≠ it.current then
    ⟨some it.current, none, none⟩
  else if ex.mail ≠ localPart it.email then
    ⟨none, some (localPart it.email), none⟩
  else emptyPatch

structure StepResult where
  item : SrcDep
  remote : Remote
  changes : List Change
  needUpdate : Bool
  reparent : List SrcDep
deriving DecidableEq

/-- Processing of one source department inside the per-level loop of
`create_dep_from_prepared_list`.  `depsList` is the full prepared list (used
for the parent lookup), `api` the department baseline current for this level.
When the parent lookup fails Python raises before doing anything; that branch
is modelled as emitting nothing. -/
def processSrcDep (s : Settings) (api : List ApiDep) (depsList : List SrcDep)
    (remote : Remote) (it : SrcDep) : StepResult :=
  let parent? := depsList.find? (fun e => e.externalId = it.prevExternalId)
  match api.find? (fun e => e.externalId = it.externalId) with
  | none =>
    match parent? with
    | some parent =>
      let it' := { it with prevId := parent.f360id, prevExternalId := parent.externalId }
      let label := if it.email ≠ [] then some (localPart it.email) else none
      let remote' :=
        if s.dry_run then remote
        else createDeptApply remote it.current parent.f360id it.externalId label
      ⟨it', remote', [Change.createDept it.current parent.f360id it.externalId label],
        true, []⟩
    | none => ⟨it, remote, [], false, []⟩
  | some ex =>
    if ex.prevExternalId ≠ it.prevExternalId then ⟨it, remote, [], false, [it]⟩
    else
      let p := dataToChange ex it
      if p ≠ emptyPatch then
        let remote' := if s.dry_run then remote else patchDeptApply remote ex.id p
        ⟨it, remote', [Change.patchDept ex.id p], false, []⟩
      else ⟨it, remote, [], false, []⟩

/-- State carried through the level loop of `create_dep_from_prepared_list`. -/
structure CreateState where
  depsList : List SrcDep
  api : List ApiDep
  remote : Remote
  changes : List Change
  reparent : List SrcDep
deriving DecidableEq

/-- Phase A of one level: process each entry of the given level in list
order, threading the remote state, accumulating changes, deferred re-parent
entries and the `need_update_deps` flag, and writing the updated entries back
into the prepared list in place. -/
def phaseA (s : Settings) (api : List ApiDep) (depsListOrig : List SrcDep)
    (level : Nat) :
    List SrcDep → Remote → List SrcDep × Remote × List Change × Bool × List SrcDep
  | [], remote => ([], remote, [], false, [])
  | d :: rest, remote =>
    if d.level = level then
      let r := processSrcDep s api depsListOrig remote d
      let (rest', remote', cs, upd, rep) := phaseA s api depsListOrig level rest r.remote
      (r.item :: rest', remote', r.changes ++ cs, r.needUpdate || upd, r.reparent ++ rep)
    else
      let (rest', remote', cs, upd, rep) := phaseA s api depsListOrig level rest remote
      (d :: rest', remote', cs, upd, rep)

/-- Phase B of one level: for every entry of the level, look its external
identifier up in the (possibly refreshed) baseline and record the found
`id` as the entry's `'360id'`. -/
def phaseB (api : List ApiDep) (level : Nat) (depsList : List SrcDep) : List SrcDep :=
  depsList.map (fun d =>
    if d.level = level then
      match api.find? (fun t => t.externalId = d.externalId) with
      | some t => { d with f360id := t.id }
      | none => d
    else d)

/-- One iteration of `for i in range(0, max_levels)`. -/
def levelStep (s : Settings) (st : CreateState) (i : Nat) : CreateState :=
  let (deps1, remote1, cs, upd, rep) := phaseA s st.api st.depsList (i + 1) st.depsList st.remote
  let api1 := if upd then generate_deps_list_from_api remote1 else st.api
  let deps2 := phaseB api1 (i + 1) deps1
  ⟨deps2, api1, remote1, st.changes ++ cs, st.reparent ++ rep⟩

/-- The deferred re-parent pass at the end of `create_dep_from_prepared_list`.
`depsToAdd` is the leftover per-level list of the *last* level (the Python
variable leaks out of the loop).  When the original entry or the new parent is
missing from the respective list Python would raise inside the live branch;
the model applies no patch in that case (the intention is still logged). -/
def reparentPass (s : Settings) (api : List ApiDep) (depsToAdd : List SrcDep)
    (remote : Remote) : List SrcDep → List Change × Remote
  | [] => ([], remote)
  | item :: rest =>
    let origDeps := depsToAdd.find? (fun e => e.externalId = item.externalId)
    let prevOrigDeps := api.find? (fun e => e.externalId = item.prevExternalId)
    let step :=
      match api.find? (fun dep360 => dep360.externalId = item.externalId) with
      | some dep360 =>
        if dep360.prevExternalId ≠ item.prevExternalId then
          let remote' :=
            if s.dry_run then remote
            else
              match origDeps, prevOrigDeps with
              | some o, some p => patchDeptApply remote o.f360id ⟨none, none, some p.id⟩
              | _, _ => remote
          ([Change.patchParent item.externalId], remote')
        else ([], remote)
      | none => ([], remote)
    let (cs, remote2) := reparentPass s api depsToAdd step.2 rest
    (step.1 ++ cs, remote2)

/-- Models `create_dep_from_prepared_list`. -/
def create_dep_from_prepared_list (s : Settings) (remote : Remote)
    (depsList : List SrcDep) (maxLevels : Nat) : List SrcDep × Remote × List Change :=
  let api0 := generate_deps_list_from_api remote
  let final := (List.range maxLevels).foldl (levelStep s) ⟨depsList, api0, remote, [], []⟩
  let depsToAdd := final.depsList.filter (fun d => d.level = maxLevels)
  let (cs, remote') := reparentPass s final.api depsToAdd final.remote final.reparent
  (final.depsList, remote', final.changes ++ cs)

/-! ### `assign_users_to_deps` (C7) -/

/-- Models `if '@' in email: email = email.split('@')[0]`. -/
def stripAt (e : Str) : Str := if hasChar e '@' then localPart e else e

/-- The AD e-mail local parts attached to a department path:
`[user.split('|')[1].split(';')[1].lower() for user in ad_users if path == user.split('|')[0]]`. -/
def emailsAdFor (adUsers : List Str) (path : Str) : List Str :=
  (adUsers.filter (fun line => fld (splitChar '|' line) 0 = path)).map
    (fun line => lowerS (fld (splitChar ';' (fld (splitChar '|' line) 1)) 1))

/-- The `nickname or alias` match of one already-stripped alias against a user. -/
def aliasMatches (e : Str) (u : Y360User) : Bool :=
  lowerS u.nickname = e || (u.aliases.map lowerS).contains e

structure AliasAdd where
  aliasName : Str
  departmentId : Nat
  path : Str
deriving DecidableEq

structure AddTo360 where
  user : Y360User
  departmentId : Nat
  path : Str
deriving DecidableEq

/-- First per-department loop: every AD alias with no matching user currently
in the department is requested as an assignment. -/
def add_to_360_aliases (createdDeps : List SrcDep) (adUsers : List Str)
    (y360 : List Y360User) : List AliasAdd :=
  createdDeps.foldl
    (fun acc deps =>
      if deps.f360id ≠ 1 then
        let users360 := y360.filter (fun u => u.departmentId = deps.f360id)
        let emailsAd := emailsAdFor adUsers deps.path
        acc ++ (emailsAd.filter (fun email =>
            ¬ users360.any (aliasMatches (stripAt email)))).map
          (fun email => ⟨stripAt email, deps.f360id, deps.path⟩)
      else acc)
    []

/-- Second per-department loop: every user currently in the department with no
matching AD alias becomes an unassignment candidate. -/
def delete_candidates_from_360 (createdDeps : List SrcDep) (adUsers : List Str)
    (y360 : List Y360User) : List Y360User :=
  createdDeps.foldl
    (fun acc deps =>
      if deps.f360id ≠ 1 then
        let users360 := y360.filter (fun u => u.departmentId = deps.f360id)
        let emailsAd := emailsAdFor adUsers deps.path
        acc ++ users360.filter (fun u =>
          ¬ emailsAd.any (fun email => aliasMatches (stripAt email) u))
      else acc)
    []

/-- Resolution loop: each requested alias is resolved to the first matching
user of the organisation (the `break` only leaves the inner user loop, so a
user matched by several requests is added once per request). -/
def add_to_360 (aliasAdds : List AliasAdd) (y360 : List Y360User) : List AddTo360 :=
  aliasAdds.foldl
    (fun acc data =>
      match y360.find? (aliasMatches (lowerS data.aliasName)) with
      | some u => acc ++ [⟨u, data.departmentId, data.path⟩]
      | none => acc)
    []

/-- Unassignment candidates not re-assigned elsewhere in the same run. -/
def delete_from_360 (cands : List Y360User) (adds : List AddTo360) : List Y360User :=
  cands.filter (fun u => ¬ adds.any (fun d => d.user.id = u.id))

/-- Models `assign_users_to_deps`: emits the re-home-to-root changes first, then the
assignment changes, applying them unless dry-run is enabled. -/
def assign_users_to_deps (s : Settings) (createdDeps : List SrcDep)
    (adUsers : List Str) (remote : Remote) : List Change × Remote :=
  let y360 := get_all_api360_users remote
  let aliasAdds := add_to_360_aliases createdDeps adUsers y360
  let adds := add_to_360 aliasAdds y360
  let dels := delete_from_360 (delete_candidates_from_360 createdDeps adUsers y360) adds
  let changes :=
    dels.map (fun u => Change.userToRoot u.id)
      ++ adds.map (fun a => Change.assignUser a.user.id a.departmentId a.path)
  let remote1 :=
    if s.dry_run then remote
    else
      adds.foldl (fun r a => patchUserDept r a.user.id a.departmentId)
        (dels.foldl (fun r u => patchUserDept r u.id 1) remote)
  (changes, remote1)

/-! ### The `__main__` flow (gating order of the validators, then the three
reconciliation phases) -/

structure RunResult where
  aborted : Bool
  changes : List Change
  remote : Remote
deriving DecidableEq

/-- The `__main__` flow after the hierarchy has been obtained: abort on an
empty hierarchy, a duplicate group identity, or an empty external identifier;
a duplicate mail alias is reported by the validator but the run continues
(`if not check_similar_mails_in_hierarchy(hierarchy): pass`), with the
hierarchy as the validator left it.  Then delete, create and assign. -/
def runPipeline (s : Settings) (hierarchy : List Str) (remote : Remote) : RunResult :=
  if hierarchy.isEmpty then ⟨true, [], remote⟩
  else if ¬check_similar_groups_in_hierarchy hierarchy then ⟨true, [], remote⟩
  else if ¬check_empty_external_id hierarchy then ⟨true, [], remote⟩
  else
    let h := (check_similar_mails_in_hierarchy hierarchy).2
    let finalList := prepare_deps_list_from_ad_hab h
    let (delChanges, remote1) := delete_deps_from_y360 s remote finalList
    let maxLevels := (finalList.map (fun d => (splitChar ';' d.path).length)).foldl max 0
    let (created, remote2, createChanges) :=
      create_dep_from_prepared_list s remote1 finalList maxLevels
    if (get_all_api360_users remote2).isEmpty then
      ⟨false, delChanges ++ createChanges, remote2⟩
    else
      let adUsers := h.filter (fun line => hasChar line '|')
      if adUsers.isEmpty then ⟨false, delChanges ++ createChanges, remote2⟩
      else
        let (assignChanges, remote3) := assign_users_to_deps s created adUsers remote2
        ⟨false, delChanges ++ createChanges ++ assignChanges, remote3⟩

/-! ## Concrete states used to settle the claims on explicit inputs -/

/-- A remote organisation holding only the root department. -/
def remoteRootOnly : Remote := ⟨[⟨1, 0, "All".toList, [], []⟩], [], 2⟩

/-- Source hierarchy with two members sharing the alias `alice`. -/
def hierDupAlias : List Str :=
  ["R~~#all#;rid".toList, "R|Alice;alice@d".toList, "R|Bob;alice@d".toList]

/-- Source hierarchy whose only node has an empty external identifier. -/
def hierEmptyExtId : List Str := ["R~~#all#;".toList]

/-- Source hierarchy: a single department `C` directly below the root. -/
def hierSingleC : List Str := ["C~~#all#;cid".toList]

/-- Remote state for the dry-run counterexample: an orphan department
`Orphan` (external id `orph`, absent from the source) with the source-managed
department `C` (external id `cid`) nested below it. -/
def remoteOrphanWithC : Remote :=
  ⟨[⟨1, 0, "All".toList, [], []⟩, ⟨2, 1, "Orphan".toList, [], "orph".toList⟩,
    ⟨3, 2, "C".toList, [], "cid".toList⟩], [], 4⟩

/-- Converged department list with two departments `A` and `B`. -/
def createdDepsAB : List SrcDep :=
  [rootSrcDep,
   ⟨"A".toList, "All".toList, 1, 2, 1, "A".toList, [], "aid".toList, "#all#".toList⟩,
   ⟨"B".toList, "All".toList, 1, 3, 1, "B".toList, [], "bid".toList, "#all#".toList⟩]

/-- AD membership lines putting the same alias `alice` under both `A` and `B`. -/
def adUsersDup : List Str := ["A|Alice;alice@d".toList, "B|Alice;alice@d".toList]

/-- Remote state with departments `A`, `B` and one user `alice` at the root. -/
def remoteAB : Remote :=
  ⟨[⟨1, 0, "All".toList, [], []⟩, ⟨2, 1, "A".toList, [], "aid".toList⟩,
    ⟨3, 1, "B".toList, [], "bid".toList⟩],
   [⟨10, "alice".toList, [], 1, "alice@d".toList⟩], 4⟩

/-- Is a change an assignment patch for the given user? -/
def Change.isAssignFor (uid : Nat) : Change → Bool
  | .assignUser u _ _ => u = uid
  | _ => false

/-- Is a change a department deletion? -/
def Change.isDeleteDept : Change → Bool
  | .deleteDept _ _ => true
  | _ => false

/-- Baseline entry for the C9 counterexample: department found by external id
`e` under the same parent, but with name `X` and label `old`. -/
def exC9 : ApiDep := ⟨5, 1, "X".toList, "old".toList, "e".toList, "#all#".toList⟩

/-- Source entry for the C9 counterexample: same external id and parent, but
name `Y` and e-mail `new@d` — both the name and the label differ. -/
def itC9 : SrcDep :=
  ⟨"Y".toList, "All".toList, 1, 0, 1, "X".toList, "new@d".toList, "e".toList, "#all#".toList⟩

/-- The raw remote department behind `exC9`. -/
def dC9 : Dept := ⟨5, 1, "X".toList, "old".toList, "e".toList⟩

/-! ## C10 — `mask_sensitive_data` -/

mutual
theorem maskSpecV_of : ∀ v : JVal, MaskSpecV v (maskRecursive v)
  | .str s => .str s
  | .num n => .num n
  | .boolean b => .boolean b
  | .null => .null
  | .arr l => .arr (maskSpecL_of l)
  | .obj o => .obj (maskSpecO_of o)

theorem maskSpecL_of : ∀ l : JList, MaskSpecL l (maskRecursiveList l)
  | .nil => .nil
  | .cons v tl => .cons (maskSpecV_of v) (maskSpecL_of tl)

theorem maskSpecO_of : ∀ o : JObj, MaskSpecO o (maskRecursiveObj o)
  | .nil => .nil
  | .cons k v tl =>
    if h : lowerS k ∈ SENSITIVE_FIELDS then by
      have hrw : maskRecursiveObj (.cons k v tl)
          = .cons k (.str MASKED) (maskRecursiveObj tl) := by
        simp [maskRecursiveObj, h]
      rw [hrw]
      exact .consSensitive h (maskSpecO_of tl)
    else by
      have hrw : maskRecursiveObj (.cons k v tl)
          = .cons k (maskRecursive v) (maskRecursiveObj tl) := by
        simp [maskRecursiveObj, h]
      rw [hrw]
      exact .consOther h (maskSpecV_of v) (maskSpecO_of tl)
end

/-- C10: for every input dictionary, `mask_sensitive_data` returns a
dictionary equal to the input except that, at every nesting depth (inside
nested dictionaries and lists), the value of every key whose lower-cased name
is a configured sensitive field name is replaced by `***MASKED***`; the input
itself is unmodified (the function works on a deep copy, and the embedding is
pure). -/
theorem c10_mask_sensitive_data :
    ∀ data : JObj, MaskSpecO data (mask_sensitive_data data) :=
  fun data => maskSpecO_of data

/-! ## C8 — the retry loop of `patch_user_by_api` and friends -/

theorem apiCallLoop_alwaysExn_eq_none :
    ∀ fuel attempt retries delays,
      apiCallLoop alwaysExn fuel attempt retries delays = none := by
  intro fuel
  induction fuel with
  | zero => intro _ _ _; rfl
  | succ n ih =>
    intro attempt retries delays
    show apiCallLoop alwaysExn (n + 1) attempt retries delays = none
    rw [apiCallLoop]
    exact ih (attempt + 1) retries delays

/-- C8 (code bug): an attempt whose request raises a connection exception is
caught inside the `while True` loop without incrementing the retry counter, so
a call on which every attempt raises never terminates — the fixed retry bound
only applies to HTTP-error responses, where the call indeed stops after
`MAX_RETRIES = 3` attempts with the linearly increasing delays `[2, 4]`. -/
theorem c8_retry_loop :
    ¬ CallTerminates alwaysExn
      ∧ patch_user_by_api_loop alwaysHttpError 10 = some ⟨false, 3, [2, 4]⟩ := by
  constructor
  · rintro ⟨fuel, r, h⟩
    rw [patch_user_by_api_loop, apiCallLoop_alwaysExn_eq_none] at h
    exact Option.noConfusion h
  · decide

/-! ## C4 — no deletions on an empty remote baseline -/

/-- C4: whenever the remote department listing comes back empty (for example
because its retry budget was exhausted and `generate_deps_list_from_api`
surfaces `[]`), the deletion pass emits zero department delete operations —
indeed zero operations of any kind. -/
theorem c4_no_delete_on_empty_baseline (s : Settings) (remote : Remote)
    (createdDeps : List SrcDep)
    (h : generate_deps_list_from_api remote = []) :
    (delete_deps_from_y360 s remote createdDeps).1.filter Change.isDeleteDept = [] := by
  have hlist : (delete_deps_from_y360 s remote createdDeps).1 = [] := by
    rw [delete_deps_from_y360, h]
    by_cases hm : rootApiEntry.externalId ∈ createdDeps.map (·.externalId)
    · simp [rootApiEntry, hm]
    · simp [rootApiEntry, hm]
  rw [hlist]
  rfl

theorem c4_witness :
    generate_deps_list_from_api remoteRootOnly = []
      ∧ (delete_deps_from_y360 ⟨false, false⟩ remoteRootOnly
          [rootSrcDep]).1.filter Change.isDeleteDept = [] :=
  ⟨by decide,
   c4_no_delete_on_empty_baseline ⟨false, false⟩ remoteRootOnly [rootSrcDep] (by decide)⟩

/-! ## C1 — the duplicate-alias validator reports, but the run continues -/

/-- The count the Python dict `count_disct` holds for alias `a`. -/
def getCount (m : List (Str × Nat)) (a : Str) : Nat :=
  ((m.find? (fun kv => kv.1 = a)).map (·.2)).getD 0

theorem getCount_bumpCount_self (m : List (Str × Nat)) (a : Str) :
    getCount (bumpCount m a) a = getCount m a + 1 := by
  induction m with
  | nil => simp [bumpCount, getCount]
  | cons kv rest ih =>
    obtain ⟨k, n⟩ := kv
    by_cases hk : k = a
    · subst hk
      simp [bumpCount, getCount]
    · simp [bumpCount, getCount, hk, List.find?]
      exact ih

theorem getCount_bumpCount_ne (m : List (Str × Nat)) (a b : Str) (hne : b ≠ a) :
    getCount (bumpCount m b) a = getCount m a := by
  induction m with
  | nil => simp [bumpCount, getCount, List.find?, hne]
  | cons kv rest ih =>
    obtain ⟨k, n⟩ := kv
    by_cases hk : k = b
    · subst hk
      simp [bumpCount, getCount, List.find?, hne]
    · by_cases hka : k = a
      · subst hka
        simp [bumpCount, getCount, List.find?, hk]
      · simp [bumpCount, getCount, List.find?, hk, hka]
        simpa [getCount, List.find?] using ih

theorem getCount_bumpCount_le (m : List (Str × Nat)) (a b : Str) :
    getCount m a ≤ getCount (bumpCount m b) a := by
  by_cases hb : b = a
  · subst hb
    rw [getCount_bumpCount_self]
    exact Nat.le_succ _
  · rw [getCount_bumpCount_ne m a b hb]

theorem getCount_countStep_le (st : Option Str × List (Str × Nat)) (item : Str)
    (a : Str) : getCount st.2 a ≤ getCount (countStep st item).2 a := by
  rcases hit : aliasOfItem item with _ | al
  · rcases hst : st.1 with _ | b
    · simp [countStep, hit, hst]
    · simp only [countStep, hit, hst]
      by_cases hb : b = []
      · rw [if_neg (fun hcon => hcon hb)]
      · rw [if_pos hb]
        exact getCount_bumpCount_le st.2 a b
  · simp only [countStep, hit]
    by_cases hal : al = []
    · rw [if_neg (fun hcon => hcon hal)]
    · rw [if_pos hal]
      exact getCount_bumpCount_le st.2 a al

theorem getCount_foldl_le (l : List Str) :
    ∀ (st : Option Str × List (Str × Nat)) (a : Str),
      getCount st.2 a ≤ getCount (l.foldl countStep st).2 a := by
  induction l with
  | nil => intro st a; simp
  | cons item rest ih =>
    intro st a
    rw [List.foldl_cons]
    exact Nat.le_trans (getCount_countStep_le st item a) (ih (countStep st item) a)

theorem getCount_countStep_hit (st : Option Str × List (Str × Nat)) (item a : Str)
    (hit : aliasOfItem item = some a) (ha : a ≠ []) :
    getCount (countStep st item).2 a = getCount st.2 a + 1 := by
  simp only [countStep, hit]
  rw [if_pos ha]
  exact getCount_bumpCount_self st.2 a

theorem badAliases_mem_of_two (h : List Str) (a : Str)
    (h2 : 2 ≤ getCount (countDisct h) a) : a ∈ badAliases h := by
  rcases hf : (countDisct h).find? (fun kv => kv.1 = a) with _ | kv
  · rw [getCount, hf] at h2
    simp at h2
  · have hmem : kv ∈ countDisct h := List.mem_of_find?_eq_some hf
    have hfst : kv.1 = a := by
      have := List.find?_some hf
      simpa using this
    have hcnt : 2 ≤ kv.2 := by
      rw [getCount, hf] at h2
      simpa using h2
    have : kv ∈ (countDisct h).filter (fun kv => decide (kv.2 > 1)) := by
      rw [List.mem_filter]
      exact ⟨hmem, by simpa using hcnt⟩
    rw [badAliases]
    exact hfst ▸ List.mem_map_of_mem (·.1) this

/-- C1 as amended: a hierarchy with two entries whose e-mail local parts
coincide (as a non-empty alias) always makes
`check_similar_mails_in_hierarchy` report failure. -/
theorem c1_duplicate_alias_reported (l₁ l₂ l₃ : List Str) (x y a : Str)
    (ha : a ≠ []) (hx : aliasOfItem x = some a) (hy : aliasOfItem y = some a) :
    (check_similar_mails_in_hierarchy (l₁ ++ x :: l₂ ++ y :: l₃)).1 = false := by
  have hcount : 2 ≤ getCount (countDisct (l₁ ++ x :: l₂ ++ y :: l₃)) a := by
    rw [countDisct, List.foldl_append, List.foldl_cons]
    set st1 := l₁.foldl countStep (none, []) with hst1
    rw [List.foldl_append, List.foldl_cons]
    have h1 : 1 ≤ getCount (countStep st1 x).2 a := by
      rw [getCount_countStep_hit st1 x a hx ha]
      exact Nat.le_add_left 1 _
    have h2 : 1 ≤ getCount (l₂.foldl countStep (countStep st1 x)).2 a :=
      Nat.le_trans h1 (getCount_foldl_le l₂ (countStep st1 x) a)
    have h3 : 2 ≤ getCount (countStep (l₂.foldl countStep (countStep st1 x)) y).2 a := by
      rw [getCount_countStep_hit _ y a hy ha]
      exact Nat.add_le_add_right h2 1
    exact Nat.le_trans h3 (getCount_foldl_le l₃ _ a)
  have hbad : a ∈ badAliases (l₁ ++ x :: l₂ ++ y :: l₃) :=
    badAliases_mem_of_two _ a hcount
  have hpos : (badAliases (l₁ ++ x :: l₂ ++ y :: l₃)).length > 0 :=
    List.length_pos.mpr (List.ne_nil_of_mem hbad)
  simp only [check_similar_mails_in_hierarchy]
  rw [if_pos hpos]

theorem c1_witness :
    ("alice".toList : Str) ≠ []
      ∧ aliasOfItem "R|Alice;alice@d".toList = some "alice".toList
      ∧ aliasOfItem "R|Bob;alice@d".toList = some "alice".toList
      ∧ (check_similar_mails_in_hierarchy
          (["R~~#all#;rid".toList] ++ "R|Alice;alice@d".toList
            :: [] ++ "R|Bob;alice@d".toList :: [])).1 = false :=
  ⟨by decide, by decide, by decide,
   c1_duplicate_alias_reported ["R~~#all#;rid".toList] [] []
     "R|Alice;alice@d".toList "R|Bob;alice@d".toList "alice".toList
     (by decide) (by decide) (by decide)⟩

/-- C1 counterexample to the claim as stated: on a hierarchy with a duplicated
membership alias the validator reports failure, yet the run is not aborted —
the `__main__` flow ignores the result (`pass`) and reconciliation proceeds to
issue a department create. -/
theorem c1_counterexample :
    (check_similar_mails_in_hierarchy hierDupAlias).1 = false
      ∧ (runPipeline ⟨false, false⟩ hierDupAlias remoteRootOnly).aborted = false
      ∧ Change.createDept "R".toList 1 "rid".toList none
          ∈ (runPipeline ⟨false, false⟩ hierDupAlias remoteRootOnly).changes := by
  refine ⟨by decide, by decide, ?_⟩
  decide

/-! ## C2 — the empty-external-identifier check aborts the run -/

theorem check_empty_foldl_false (l : List Str) :
    l.foldl
      (fun noErrors item =>
        if hasChar item '~' ∧ extIdField item = [] then false else noErrors)
      false = false := by
  induction l with
  | nil => rfl
  | cons item rest ih =>
    rw [List.foldl_cons]
    by_cases hc : hasChar item '~' ∧ extIdField item = []
    · simpa [hc] using ih
    · simpa [hc] using ih

/-- C2 as amended: a node line with an empty external-identifier field makes
`check_empty_external_id` fail, and `__main__` then aborts the run
(`sys.exit`) before reconciliation, emitting no change at all. -/
theorem c2_empty_external_id_aborts (h : List Str) (x : Str) (hx : x ∈ h)
    (ht : hasChar x '~' = true) (he : extIdField x = []) :
    check_empty_external_id h = false
      ∧ ∀ (s : Settings) (r : Remote),
          (runPipeline s h r).aborted = true ∧ (runPipeline s h r).changes = [] := by
  have hfalse : check_empty_external_id h = false := by
    rw [check_empty_external_id]
    obtain ⟨l₁, l₂, rfl⟩ := List.append_of_mem hx
    rw [List.foldl_append, List.foldl_cons]
    have : (if hasChar x '~' ∧ extIdField x = [] then false
            else l₁.foldl
              (fun noErrors item =>
                if hasChar item '~' ∧ extIdField item = [] then false else noErrors)
              true) = false := by
      simp [ht, he]
    rw [this]
    exact check_empty_foldl_false l₂
  refine ⟨hfalse, fun s r => ?_⟩
  have hne : h.isEmpty = false := by
    rcases h with _ | _
    · cases hx
    · rfl
  by_cases hg : check_similar_groups_in_hierarchy h
  · constructor
    · simp [runPipeline, hne, hg, hfalse]
    · simp [runPipeline, hne, hg, hfalse]
  · constructor
    · simp [runPipeline, hne, hg]
    · simp [runPipeline, hne, hg]

theorem c2_witness :
    ("R~~#all#;".toList : Str) ∈ hierEmptyExtId
      ∧ hasChar "R~~#all#;".toList '~' = true
      ∧ extIdField "R~~#all#;".toList = []
      ∧ check_empty_external_id hierEmptyExtId = false
      ∧ (runPipeline ⟨false, false⟩ hierEmptyExtId remoteRootOnly).aborted = true :=
  ⟨by decide, by decide, by decide,
   (c2_empty_external_id_aborts hierEmptyExtId "R~~#all#;".toList
      (by decide) (by decide) (by decide)).1,
   ((c2_empty_external_id_aborts hierEmptyExtId "R~~#all#;".toList
      (by decide) (by decide) (by decide)).2 ⟨false, false⟩ remoteRootOnly).1⟩

/-- C2 counterexample to the claim as stated: a hierarchy whose node has an
empty external identifier does *not* merely produce a warning — the run
aborts (`sys.exit(EXIT_CODE)`) and reconciliation does not proceed. -/
theorem c2_counterexample :
    check_empty_external_id hierEmptyExtId = false
      ∧ (runPipeline ⟨false, false⟩ hierEmptyExtId remoteRootOnly).aborted = true
      ∧ (runPipeline ⟨false, false⟩ hierEmptyExtId remoteRootOnly).changes = [] := by
  decide

/-! ## C3 — dry-run equivalence -/

/-- C3 counterexample to the claim as stated: for the fixed source
`hierSingleC` and remote `remoteOrphanWithC`, the live run deletes the orphan
subtree (including the source-managed department `C`) and therefore re-creates
`C`, while the dry run — whose deletions were only logged — still finds `C`
remotely and computes a re-parent instead.  The two computed change lists
differ. -/
theorem c3_counterexample :
    (runPipeline ⟨true, false⟩ hierSingleC remoteOrphanWithC).changes
      ≠ (runPipeline ⟨false, false⟩ hierSingleC remoteOrphanWithC).changes := by
  decide

/-! ## C7 — several assignment patches for a doubly-matched user -/

/-- C7 counterexample to the claim as stated: the alias `alice` is requested
under both departments `A` and `B`; the `break` of the resolution loop only
leaves the inner user loop, so user 10 receives two assignment patches, not
exactly one. -/
theorem c7_counterexample :
    ((assign_users_to_deps ⟨false, false⟩ createdDepsAB adUsersDup remoteAB).1.filter
        (Change.isAssignFor 10)).length = 2
      ∧ ((assign_users_to_deps ⟨false, false⟩ createdDepsAB adUsersDup remoteAB).1.filter
          (Change.isAssignFor 10)).length ≠ 1 := by
  decide

/-- C7 as amended: the Membership Assigner emits exactly one assignment patch
per *resolved alias request* — a user whose alias is matched under `n`
intended departments receives `n` assignment patches (in left-to-right
department order, the last one winning), rather than only the first match. -/
theorem c7_one_patch_per_resolved_match (s : Settings) (createdDeps : List SrcDep)
    (adUsers : List Str) (remote : Remote) (u : Nat) :
    ((assign_users_to_deps s createdDeps adUsers remote).1.filter
        (Change.isAssignFor u)).length
      = ((add_to_360
            (add_to_360_aliases createdDeps adUsers (get_all_api360_users remote))
            (get_all_api360_users remote)).filter
          (fun a => a.user.id = u)).length := by
  simp only [assign_users_to_deps]
  rw [List.filter_append, List.filter_map, List.filter_map]
  have hdel :
      (Change.isAssignFor u ∘ fun (u' : Y360User) => Change.userToRoot u'.id)
        = fun _ => false := by
    funext u'
    rfl
  have hadd :
      (Change.isAssignFor u ∘ fun (a : AddTo360) =>
          Change.assignUser a.user.id a.departmentId a.path)
        = fun a => decide (a.user.id = u) := by
    funext a
    rfl
  rw [hdel, hadd]
  simp

/-! ## C9 — rename is patched, the label only when the name already agrees -/

/-- C9 counterexample to the claim as stated: a department found by external
identifier with the same parent whose name *and* label both differ gets a
patch fixing only the name (the `elif` never reaches the label comparison), so
the patch does not bring the mail alias into agreement with the source. -/
theorem c9_counterexample :
    exC9.prevExternalId = itC9.prevExternalId
      ∧ (splitChar ';' exC9.path).getLastD [] ≠ itC9.current
      ∧ exC9.mail ≠ localPart itC9.email
      ∧ dataToChange exC9 itC9 = ⟨some itC9.current, none, none⟩
      ∧ (applyDeptPatchFields dC9 (dataToChange exC9 itC9)).label
          ≠ localPart itC9.email := by
  decide

/-- C9 as amended: for a source node found in the baseline by external
identifier with the same parent, if the name or the mail alias differs a
single patch is emitted in the same pass; it fixes the name when the name
differs, and fixes the label only when the name already agrees — after the
patch the name always agrees with the source, the label only if the name
already did. -/
theorem c9_rename_patch (s : Settings) (api : List ApiDep) (depsList : List SrcDep)
    (remote : Remote) (it : SrcDep) (ex : ApiDep) (d : Dept)
    (hfind : api.find? (fun e => e.externalId = it.externalId) = some ex)
    (hpar : ex.prevExternalId = it.prevExternalId)
    (hname : (splitChar ';' ex.path).getLastD [] = d.name)
    (hdiff : (splitChar ';' ex.path).getLastD [] ≠ it.current
              ∨ ex.mail ≠ localPart it.email) :
    (processSrcDep s api depsList remote it).changes
        = [Change.patchDept ex.id (dataToChange ex it)]
      ∧ dataToChange ex it ≠ emptyPatch
      ∧ (applyDeptPatchFields d (dataToChange ex it)).name = it.current
      ∧ (d.name = it.current →
          (applyDeptPatchFields d (dataToChange ex it)).label = localPart it.email) := by
  have hpatch : dataToChange ex it ≠ emptyPatch := by
    by_cases hn : (splitChar ';' ex.path).getLastD [] = it.current
    · have hm : ex.mail ≠ localPart it.email := by
        rcases hdiff with hd | hd
        · exact absurd hn hd
        · exact hd
      rw [dataToChange, if_neg (fun hcon => hcon hn), if_pos hm]
      simp [emptyPatch]
    · rw [dataToChange, if_pos hn]
      simp [emptyPatch]
  refine ⟨?_, hpatch, ?_, ?_⟩
  · simp only [processSrcDep, hfind]
    rw [if_neg (fun hcon => hcon hpar)]
    rw [if_pos hpatch]
  · by_cases hn : (splitChar ';' ex.path).getLastD [] = it.current
    · have hm : ex.mail ≠ localPart it.email := by
        rcases hdiff with hd | hd
        · exact absurd hn hd
        · exact hd
      rw [dataToChange, if_neg (fun hcon => hcon hn), if_pos hm]
      simp [applyDeptPatchFields]
      rw [← hname]
      exact hn
    · rw [dataToChange, if_pos hn]
      simp [applyDeptPatchFields]
  · intro hcur
    by_cases hn : (splitChar ';' ex.path).getLastD [] = it.current
    · have hm : ex.mail ≠ localPart it.email := by
        rcases hdiff with hd | hd
        · exact absurd hn hd
        · exact hd
      rw [dataToChange, if_neg (fun hcon => hcon hn), if_pos hm]
      simp [applyDeptPatchFields]
    · exact absurd (hname.trans hcur) hn

theorem c9_witness :
    [exC9].find? (fun e => e.externalId = itC9.externalId) = some exC9
      ∧ exC9.prevExternalId = itC9.prevExternalId
      ∧ (splitChar ';' exC9.path).getLastD [] = dC9.name
      ∧ ((splitChar ';' exC9.path).getLastD [] ≠ itC9.current
          ∨ exC9.mail ≠ localPart itC9.email)
      ∧ ((processSrcDep ⟨false, false⟩ [exC9] [] remoteRootOnly itC9).changes
            = [Change.patchDept exC9.id (dataToChange exC9 itC9)]
          ∧ dataToChange exC9 itC9 ≠ emptyPatch
          ∧ (applyDeptPatchFields dC9 (dataToChange exC9 itC9)).name = itC9.current
          ∧ (dC9.name = itC9.current →
              (applyDeptPatchFields dC9 (dataToChange exC9 itC9)).label
                = localPart itC9.email)) :=
  ⟨by decide, by decide, by decide, by decide,
   c9_rename_patch ⟨false, false⟩ [exC9] [] remoteRootOnly itC9 exC9 dC9
     (by decide) (by decide) (by decide) (by decide)⟩

/-- The decisions of the per-candidate deletion loop never read the dry-run
flag or the evolving remote state: the emitted changes and the bookkeeping of
already-deleted identifiers agree between any two runs over the same snapshot,
users and items. -/
theorem passItems_changes_settings_invariant (s₁ s₂ : Settings)
    (snapshot : List ApiDep) (users : List Y360User) :
    ∀ (items : List ApiDep) (r₁ r₂ : Remote) (del : List Nat),
      (passItems s₁ snapshot users items r₁ del).1
          = (passItems s₂ snapshot users items r₂ del).1
        ∧ (passItems s₁ snapshot users items r₁ del).2.2
          = (passItems s₂ snapshot users items r₂ del).2.2 := by
  intro items
  induction items with
  | nil => intro r₁ r₂ del; exact ⟨rfl, rfl⟩
  | cons it rest ih =>
    intro r₁ r₂ del
    by_cases hmem :
        ((snapshot.find? (fun dep => dep.path = it.path)).map (·.id)).getD 0 ∈ del
    · simpa [passItems, hmem] using ih r₁ r₂ del
    · have h := ih
        (if s₁.dry_run then r₁
         else deleteDeptApply
           ((users.filter (fun u => u.departmentId
              = ((snapshot.find? (fun dep => dep.path = it.path)).map (·.id)).getD 0)).foldl
             (fun r u => patchUserDept r u.id 1) r₁)
           (((snapshot.find? (fun dep => dep.path = it.path)).map (·.id)).getD 0))
        (if s₂.dry_run then r₂
         else deleteDeptApply
           ((users.filter (fun u => u.departmentId
              = ((snapshot.find? (fun dep => dep.path = it.path)).map (·.id)).getD 0)).foldl
             (fun r u => patchUserDept r u.id 1) r₂)
           (((snapshot.find? (fun dep => dep.path = it.path)).map (·.id)).getD 0))
        (del ++ [((snapshot.find? (fun dep => dep.path = it.path)).map (·.id)).getD 0])
      simp only [passItems]
      rw [if_neg hmem, if_neg hmem]
      dsimp only
      rw [h.1, h.2]
      exact ⟨rfl, rfl⟩

theorem candidatePass_changes_settings_invariant (s₁ s₂ : Settings)
    (snapshot : List ApiDep) (users : List Y360User) (r₁ r₂ : Remote)
    (del : List Nat) (depsId : Nat) :
    (candidatePass s₁ snapshot users r₁ del depsId).1
        = (candidatePass s₂ snapshot users r₂ del depsId).1
      ∧ (candidatePass s₁ snapshot users r₁ del depsId).2.2
        = (candidatePass s₂ snapshot users r₂ del depsId).2.2 := by
  simp only [candidatePass]
  exact passItems_changes_settings_invariant s₁ s₂ snapshot users _ r₁ r₂ del

theorem deleteFold_changes_settings_invariant (s₁ s₂ : Settings)
    (snapshot : List ApiDep) (users : List Y360User) :
    ∀ (cands : List Nat) (cs : List Change) (r₁ r₂ : Remote) (del : List Nat),
      (cands.foldl
        (fun (st : List Change × Remote × List Nat) depsId =>
          let res := candidatePass s₁ snapshot users st.2.1 st.2.2 depsId
          (st.1 ++ res.1, res.2.1, res.2.2)) (cs, r₁, del)).1
        = (cands.foldl
            (fun (st : List Change × Remote × List Nat) depsId =>
              let res := candidatePass s₂ snapshot users st.2.1 st.2.2 depsId
              (st.1 ++ res.1, res.2.1, res.2.2)) (cs, r₂, del)).1 := by
  intro cands
  induction cands with
  | nil => intro cs r₁ r₂ del; rfl
  | cons c rest ih =>
    intro cs r₁ r₂ del
    have h := candidatePass_changes_settings_invariant s₁ s₂ snapshot users r₁ r₂ del c
    simp only [List.foldl_cons]
    rw [show cs ++ (candidatePass s₁ snapshot users r₁ del c).1
          = cs ++ (candidatePass s₂ snapshot users r₂ del c).1 by rw [h.1],
        h.2]
    exact ih _ _ _ _

/-- C3 as amended: the deletion pass computes an identical change list whether
dry-run is enabled or not — its decisions are taken from snapshots read before
any mutation.  (For the full pipeline the claim fails, see the counterexample:
live mutations feed back into the create/re-parent phase through refreshed
baselines.) -/
theorem c3_delete_phase_dry_run_equivalent (keep : Bool) (remote : Remote)
    (createdDeps : List SrcDep) :
    (delete_deps_from_y360 ⟨true, keep⟩ remote createdDeps).1
      = (delete_deps_from_y360 ⟨false, keep⟩ remote createdDeps).1 := by
  simp only [delete_deps_from_y360]
  set snapshot :=
    List.insertionSort segCountLE (generate_deps_list_from_api remote) ++ [rootApiEntry]
  set toDelete := snapshot.foldl
    (fun acc item =>
      if item.externalId.length = 0 then
        if item.id ≠ 1 ∧ ¬(⟨true, keep⟩ : Settings).keep_empty_external_id_in_y360 then
          addIfNew acc item.id
        else acc
      else if item.externalId ∉ createdDeps.map (·.externalId) then
        if item.id ≠ 1 then addIfNew acc item.id else acc
      else acc)
    ([] : List Nat)
  by_cases hlen : toDelete.length > 0
  · simp only [hlen, if_pos]
    exact deleteFold_changes_settings_invariant ⟨true, keep⟩ ⟨false, keep⟩
      snapshot (get_all_api360_users remote) toDelete [] remote remote []
  · simp [hlen]

/-! ## C5 — parents-before-children ordering, parent external ids recorded -/

theorem occf_mem (users : List LUser) {base pext b p : Str} {f : GForest} {d : GTree}
    (h : OccF base pext f b p d) :
    mkNodeLine (b ++ [';']) p d ∈ build_hierarcy_recursive users base pext f := by
  induction h with
  | @here base pext c ts =>
    rcases c with ⟨n, m, e, s, ch⟩
    simp [build_hierarcy_recursive]
  | @inChild base pext b p c d ts h ih =>
    rcases c with ⟨n, m, e, s, ch⟩
    simp only [GTree.name, GTree.extId, GTree.children] at ih
    simp only [build_hierarcy_recursive]
    exact List.mem_cons_of_mem _
      (List.mem_append_left _ (List.mem_append_right _ ih))
  | @there base pext b p c d ts h ih =>
    rcases c with ⟨n, m, e, s, ch⟩
    simp only [build_hierarcy_recursive]
    exact List.mem_cons_of_mem _ (List.mem_append_right _ ih)

theorem occf_order (users : List LUser) {base pext bc pc bd pd : Str} {f : GForest}
    {c d : GTree}
    (h₁ : OccF base pext f bc pc c)
    (h₂ : OccF (bc ++ ';' :: c.name) c.extId c.children bd pd d) :
    List.Sublist [mkNodeLine (bc ++ [';']) pc c, mkNodeLine (bd ++ [';']) pd d]
      (build_hierarcy_recursive users base pext f) := by
  induction h₁ with
  | @here base pext c ts =>
    have hmem := occf_mem users h₂
    rcases c with ⟨n, m, e, s, ch⟩
    simp only [GTree.name, GTree.extId, GTree.children] at hmem
    simp only [build_hierarcy_recursive]
    exact List.Sublist.cons₂ _
      (List.singleton_sublist.mpr
        (List.mem_append_left _ (List.mem_append_right _ hmem)))
  | @inChild base pext b p c' d' ts h ih =>
    have hsub := ih h₂
    rcases c' with ⟨n, m, e, s, ch⟩
    simp only [GTree.name, GTree.extId, GTree.children] at hsub
    simp only [build_hierarcy_recursive]
    refine List.Sublist.cons _ (hsub.trans ?_)
    exact (List.sublist_append_right _ _).trans
      (List.sublist_append_left _ _)
  | @there base pext b p c' d' ts h ih =>
    have hsub := ih h₂
    rcases c' with ⟨n, m, e, s, ch⟩
    simp only [build_hierarcy_recursive]
    exact List.Sublist.cons _ (hsub.trans (List.sublist_append_right _ _))

theorem occf_trans {base pext bc pc b p : Str} {f : GForest} {c d : GTree}
    (h₁ : OccF base pext f bc pc c)
    (h₂ : OccF (bc ++ ';' :: c.name) c.extId c.children b p d) :
    OccF base pext f b p d := by
  induction h₁ with
  | here => exact .inChild h₂
  | inChild h ih => exact .inChild (ih h₂)
  | there h ih => exact .there (ih h₂)

theorem memf_occ {base pext : Str} {f : GForest} {d : GTree} (h : MemF f d) :
    OccF base pext f base pext d := by
  induction h with
  | head => exact .here
  | tail h ih => exact .there ih

/-- C5: the encoder output is parents-before-children and every node entry
records the external identifier of its immediate parent.  Part (i): the root
entry comes before every descendant's entry.  Part (ii): every node's entry
comes before the entry of any of its strict descendants.  Part (iii): the
entry of a direct child `d` of a node `c` literally carries `c.extId` in its
parent-identifier field.  Part (iv): the same for direct children of the
root. -/
theorem c5_encoder_order_and_parent_ids (users : List LUser) (root : GTree)
    (bc pc bd pd : Str) (c d : GTree) :
    (OccF root.name root.extId root.children bd pd d →
      List.Sublist
        [mkNodeLine [] "#all#".toList root, mkNodeLine (bd ++ [';']) pd d]
        (build_group_hierarchy users root))
    ∧ (OccF root.name root.extId root.children bc pc c →
        OccF (bc ++ ';' :: c.name) c.extId c.children bd pd d →
        List.Sublist
          [mkNodeLine (bc ++ [';']) pc c, mkNodeLine (bd ++ [';']) pd d]
          (build_group_hierarchy users root))
    ∧ (OccF root.name root.extId root.children bc pc c →
        MemF c.children d →
        mkNodeLine ((bc ++ ';' :: c.name) ++ [';']) c.extId d
          ∈ build_group_hierarchy users root)
    ∧ (MemF root.children d →
        mkNodeLine (root.name ++ [';']) root.extId d
          ∈ build_group_hierarchy users root) := by
  refine ⟨fun h => ?_, fun h₁ h₂ => ?_, fun h₁ h₂ => ?_, fun h => ?_⟩
  · have hmem := occf_mem users h
    rw [build_group_hierarchy]
    exact List.Sublist.cons₂ _
      (List.singleton_sublist.mpr (List.mem_append_right _ hmem))
  · have hsub := occf_order users h₁ h₂
    rw [build_group_hierarchy]
    exact List.Sublist.cons _ (hsub.trans (List.sublist_append_right _ _))
  · have hocc : OccF root.name root.extId root.children
        (bc ++ ';' :: c.name) c.extId d := occf_trans h₁ (memf_occ h₂)
    have hmem := occf_mem users hocc
    rw [build_group_hierarchy]
    exact List.mem_cons_of_mem _ (List.mem_append_right _ hmem)
  · have hmem := occf_mem users (@memf_occ root.name root.extId _ _ h)
    rw [build_group_hierarchy]
    exact List.mem_cons_of_mem _ (List.mem_append_right _ hmem)

/-- A three-level concrete tree `R → A → B` used as the C5 witness. -/
def gtreeB : GTree := .node "B".toList [] "b".toList "bs".toList .nil

def gtreeA : GTree := .node "A".toList [] "a".toList "as".toList (.cons gtreeB .nil)

def gtreeR : GTree := .node "R".toList [] "r".toList "rs".toList (.cons gtreeA .nil)

theorem c5_witness :
    OccF gtreeR.name gtreeR.extId gtreeR.children "R".toList "r".toList gtreeA
      ∧ OccF ("R".toList ++ ';' :: gtreeA.name) gtreeA.extId gtreeA.children
          ("R".toList ++ ';' :: gtreeA.name) "a".toList gtreeB
      ∧ List.Sublist
          [mkNodeLine ("R".toList ++ [';']) "r".toList gtreeA,
           mkNodeLine (("R".toList ++ ';' :: gtreeA.name) ++ [';']) "a".toList gtreeB]
          (build_group_hierarchy [] gtreeR) :=
  ⟨.here, .here,
   (c5_encoder_order_and_parent_ids [] gtreeR "R".toList "r".toList
      ("R".toList ++ ';' :: gtreeA.name) "a".toList gtreeA gtreeB).2.1 .here .here⟩

/-! ## C6 — deepest-first deletion, users re-homed before each delete -/

theorem delete_mem_seg {us : List Y360User} {pt : Str} {dId : Nat} {p : Str} {i : Nat}
    (h : Change.deleteDept p i
          ∈ us.map (fun u => Change.userToRoot u.id) ++ [Change.deleteDept pt dId]) :
    p = pt ∧ i = dId := by
  rcases List.mem_append.mp h with hm | hm
  · rcases List.mem_map.mp hm with ⟨u, _, hu⟩
    cases hu
  · rcases List.mem_singleton.mp hm with h'
    cases h'
    exact ⟨rfl, rfl⟩

theorem passItems_delete_mem (s : Settings) (snapshot : List ApiDep)
    (users : List Y360User) :
    ∀ (items : List ApiDep) (remote : Remote) (del : List Nat) (p : Str) (i : Nat),
      Change.deleteDept p i ∈ (passItems s snapshot users items remote del).1 →
      ∃ it ∈ items, it.path = p := by
  intro items
  induction items with
  | nil => intro remote del p i h; cases h
  | cons it rest ih =>
    intro remote del p i h
    by_cases hmem :
        ((snapshot.find? (fun dep => dep.path = it.path)).map (·.id)).getD 0 ∈ del
    · simp only [passItems] at h
      rw [if_pos hmem] at h
      obtain ⟨j, hj, hp⟩ := ih _ _ _ _ h
      exact ⟨j, List.mem_cons_of_mem _ hj, hp⟩
    · simp only [passItems] at h
      rw [if_neg hmem] at h
      dsimp only at h
      rcases List.mem_append.mp h with hseg | hrec
      · obtain ⟨hp, _⟩ := delete_mem_seg hseg
        exact ⟨it, List.mem_cons_self _ _, hp.symm⟩
      · obtain ⟨j, hj, hp⟩ := ih _ _ _ _ hrec
        exact ⟨j, List.mem_cons_of_mem _ hj, hp⟩

theorem passItems_delete_order (s : Settings) (snapshot : List ApiDep)
    (users : List Y360User) :
    ∀ (items : List ApiDep) (remote : Remote) (del : List Nat)
      (pa pb : Str) (ida idb : Nat),
      List.Pairwise pathLenGE items →
      pa.length < pb.length →
      Change.deleteDept pb idb ∈ (passItems s snapshot users items remote del).1 →
      Change.deleteDept pa ida ∈ (passItems s snapshot users items remote del).1 →
      List.Sublist [Change.deleteDept pb idb, Change.deleteDept pa ida]
        (passItems s snapshot users items remote del).1 := by
  intro items
  induction items with
  | nil => intro remote del pa pb ida idb _ _ hb _; cases hb
  | cons it rest ih =>
    intro remote del pa pb ida idb hpw hlen hb ha
    obtain ⟨hhead, htail⟩ := List.pairwise_cons.mp hpw
    by_cases hmem :
        ((snapshot.find? (fun dep => dep.path = it.path)).map (·.id)).getD 0 ∈ del
    · simp only [passItems] at hb ha ⊢
      rw [if_pos hmem] at hb ha ⊢
      exact ih _ _ _ _ _ _ htail hlen hb ha
    · simp only [passItems] at hb ha ⊢
      rw [if_neg hmem] at hb ha ⊢
      dsimp only at hb ha ⊢
      rcases List.mem_append.mp hb with hbseg | hbrec
      · obtain ⟨hbp, _⟩ := delete_mem_seg hbseg
        rcases List.mem_append.mp ha with haseg | harec
        · obtain ⟨hap, _⟩ := delete_mem_seg haseg
          rw [hap, ← hbp] at hlen
          exact absurd hlen (Nat.lt_irrefl _)
        · exact List.Sublist.append (List.singleton_sublist.mpr hbseg)
            (List.singleton_sublist.mpr harec)
      · rcases List.mem_append.mp ha with haseg | harec
        · obtain ⟨hap, _⟩ := delete_mem_seg haseg
          obtain ⟨j, hj, hjp⟩ := passItems_delete_mem s snapshot users rest _ _ _ _ hbrec
          have : pathLenGE it j := hhead j hj
          rw [pathLenGE, hjp] at this
          rw [hap] at hlen
          exact absurd (Nat.lt_of_lt_of_le hlen this) (Nat.lt_irrefl _)
        · exact (ih _ _ _ _ _ _ htail hlen hbrec harec).trans
            (List.sublist_append_right _ _)

theorem sublist_pair_append {α : Type} {x y : α} {A : List α} (hx : x ∈ A) :
    List.Sublist [x, y] (A ++ [y]) := by
  induction A with
  | nil => cases hx
  | cons a as ih =>
    rcases List.mem_cons.mp hx with rfl | hx'
    · exact List.Sublist.cons₂ _ (List.sublist_append_right as [y])
    · exact List.Sublist.cons _ (ih hx')

theorem passItems_reassign_before (s : Settings) (snapshot : List ApiDep)
    (users : List Y360User) :
    ∀ (items : List ApiDep) (remote : Remote) (del : List Nat)
      (p : Str) (i : Nat) (u : Y360User),
      Change.deleteDept p i ∈ (passItems s snapshot users items remote del).1 →
      u ∈ users → u.departmentId = i →
      List.Sublist [Change.userToRoot u.id, Change.deleteDept p i]
        (passItems s snapshot users items remote del).1 := by
  intro items
  induction items with
  | nil => intro remote del p i u h _ _; cases h
  | cons it rest ih =>
    intro remote del p i u h hu hdep
    by_cases hmem :
        ((snapshot.find? (fun dep => dep.path = it.path)).map (·.id)).getD 0 ∈ del
    · simp only [passItems] at h ⊢
      rw [if_pos hmem] at h ⊢
      exact ih _ _ _ _ _ h hu hdep
    · simp only [passItems] at h ⊢
      rw [if_neg hmem] at h ⊢
      dsimp only at h ⊢
      rcases List.mem_append.mp h with hseg | hrec
      · obtain ⟨hp, hi⟩ := delete_mem_seg hseg
        have humem : u ∈ users.filter (fun u' => u'.departmentId
            = ((snapshot.find? (fun dep => dep.path = it.path)).map (·.id)).getD 0) := by
          rw [List.mem_filter]
          refine ⟨hu, ?_⟩
          rw [hdep, hi]
          simp
        have hseg' : List.Sublist [Change.userToRoot u.id, Change.deleteDept p i]
            ((users.filter (fun u' => u'.departmentId
                = ((snapshot.find? (fun dep => dep.path = it.path)).map (·.id)).getD 0)).map
              (fun u' => Change.userToRoot u'.id)
             ++ [Change.deleteDept it.path
                  (((snapshot.find? (fun dep => dep.path = it.path)).map (·.id)).getD 0)]) := by
          rw [hp, hi]
          exact sublist_pair_append (List.mem_map_of_mem _ humem)
        exact hseg'.trans (List.sublist_append_left _ _)
      · exact (ih _ _ _ _ _ hrec hu hdep).trans (List.sublist_append_right _ _)

/-- C6: in the processing of one deletion candidate, (a) the delete operations
inside the candidate's subtree are issued deepest-path-first — a department
whose path strictly extends another's (a descendant) is deleted before it —
and (b) every user still assigned (per the snapshot) to a department about to
be deleted gets its re-home-to-root patch before that department's delete. -/
theorem c6_deepest_first_and_rehome (s : Settings) (snapshot : List ApiDep)
    (users : List Y360User) (remote : Remote) (del : List Nat) (depsId : Nat) :
    (∀ (pa pb : Str) (ida idb : Nat),
      (∃ rest, pb = pa ++ ';' :: rest) →
      Change.deleteDept pb idb ∈ (candidatePass s snapshot users remote del depsId).1 →
      Change.deleteDept pa ida ∈ (candidatePass s snapshot users remote del depsId).1 →
      List.Sublist [Change.deleteDept pb idb, Change.deleteDept pa ida]
        (candidatePass s snapshot users remote del depsId).1)
    ∧ (∀ u ∈ users, ∀ (p : Str) (i : Nat),
        Change.deleteDept p i ∈ (candidatePass s snapshot users remote del depsId).1 →
        u.departmentId = i →
        List.Sublist [Change.userToRoot u.id, Change.deleteDept p i]
          (candidatePass s snapshot users remote del depsId).1) := by
  constructor
  · intro pa pb ida idb hdesc hb ha
    obtain ⟨rest, hrest⟩ := hdesc
    have hlen : pa.length < pb.length := by
      rw [hrest, List.length_append, List.length_cons]
      omega
    have hpw : List.Pairwise pathLenGE
        (List.insertionSort pathLenGE
          (snapshot.filter (fun line => startsWithS line.path
            (((snapshot.find? (fun item => item.id = depsId)).map (·.path)).getD [])))) :=
      List.sorted_insertionSort pathLenGE _
    exact passItems_delete_order s snapshot users _ _ _ _ _ _ _ hpw hlen hb ha
  · intro u hu p i h hdep
    exact passItems_reassign_before s snapshot users _ _ _ _ _ _ h hu hdep

/-- Snapshot for the C6 witness: a candidate department `X` with the child
`X;Y`, plus the root pseudo-entry. -/
def snapC6 : List ApiDep :=
  [⟨2, 1, "X".toList, [], "x".toList, "#all#".toList⟩,
   ⟨3, 2, "X;Y".toList, [], "y".toList, "x".toList⟩, rootApiEntry]

def usersC6 : List Y360User := [⟨20, "bob".toList, [], 3, "bob@d".toList⟩]

theorem c6_witness :
    Change.deleteDept "X;Y".toList 3
        ∈ (candidatePass ⟨false, false⟩ snapC6 usersC6 remoteRootOnly [] 2).1
      ∧ Change.deleteDept "X".toList 2
          ∈ (candidatePass ⟨false, false⟩ snapC6 usersC6 remoteRootOnly [] 2).1
      ∧ List.Sublist
          [Change.deleteDept "X;Y".toList 3, Change.deleteDept "X".toList 2]
          (candidatePass ⟨false, false⟩ snapC6 usersC6 remoteRootOnly [] 2).1
      ∧ List.Sublist
          [Change.userToRoot 20, Change.deleteDept "X;Y".toList 3]
          (candidatePass ⟨false, false⟩ snapC6 usersC6 remoteRootOnly [] 2).1 :=
  ⟨by decide, by decide,
   (c6_deepest_first_and_rehome ⟨false, false⟩ snapC6 usersC6 remoteRootOnly [] 2).1
     "X".toList "X;Y".toList 2 3 ⟨"Y".toList, by decide⟩ (by decide) (by decide),
   (c6_deepest_first_and_rehome ⟨false, false⟩ snapC6 usersC6 remoteRootOnly [] 2).2
     ⟨20, "bob".toList, [], 3, "bob@d".toList⟩ (by decide) "X;Y".toList 3
     (by decide) (by decide)⟩

end SyncDeps
